import Mathlib

/-!
Verification of the auto_dfu device-command protocol engine (src/main.cpp).

The transport (AppleHPMLib `Read`/`Write`/`Command` primitives) is modelled as
a deterministic oracle `Dev` giving the response of each successive primitive
call; the program state `St` carries the per-primitive call counters and the
trace of primitive calls issued so far.  A raised C++ `failure` exception is
modelled as `Except.error ()`.
-/

namespace AutoDFU

/-- A primitive call issued to the transport. -/
inductive Ev where
  | readEv  (chip dataAddr : Nat) (val : List Nat)
  | writeEv (chip dataAddr : Nat) (bytes : List Nat)
  | cmdEv   (chip code : Nat)
  deriving Repr, DecidableEq

/-- Oracle for the transport: response of the n-th Read / Write / Command
primitive call.  `readResp n = none` models a nonzero `Read` status
(`readRegister` then throws); `writeResp` / `cmdResp` are the raw statuses. -/
structure Dev where
  readResp  : Nat → Option (List Nat)
  writeResp : Nat → Nat
  cmdResp   : Nat → Nat

/-- Program-side state: how many calls of each primitive have been issued,
and the trace of calls so far. -/
structure St where
  readIx  : Nat
  writeIx : Nat
  cmdIx   : Nat
  trace   : List Ev
  deriving Repr, DecidableEq

def st0 : St := ⟨0, 0, 0, []⟩

/-- `HPMPluginInstance::readRegister`: issue a Read; a nonzero status throws
`failure` (modelled as `Except.error ()`). -/
def readRegister (d : Dev) (st : St) (chip dataAddr : Nat) :
    Except Unit (List Nat × St) :=
  match d.readResp st.readIx with
  | none => .error ()
  | some b =>
      .ok (b, { st with readIx := st.readIx + 1,
                        trace := st.trace ++ [.readEv chip dataAddr b] })

/-- The raw `(*device)->Write(...)` call in `HPMPluginInstance::command`:
its status is read and discarded (the source does not check it). -/
def writeIgnore (d : Dev) (st : St) (chip dataAddr : Nat) (bytes : List Nat) : St :=
  let _ := d.writeResp st.writeIx
  { st with writeIx := st.writeIx + 1,
            trace := st.trace ++ [.writeEv chip dataAddr bytes] }

/-- `HPMPluginInstance::command`: optionally write args to register 9
(status ignored), issue the Command primitive; on nonzero command status
return `-1` without reading; otherwise read register 9 and return
`res[0] & 0xf`. -/
def command (d : Dev) (st : St) (chip cmd : Nat) (args : List Nat) :
    Except Unit (Int × St) :=
  let st1 := if args.isEmpty then st else writeIgnore d st chip 9 args
  let s := d.cmdResp st1.cmdIx
  let st2 := { st1 with cmdIx := st1.cmdIx + 1,
                        trace := st1.trace ++ [.cmdEv chip cmd] }
  if s ≠ 0 then .ok (-1, st2)
  else
    match readRegister d st2 chip 9 with
    | .error e => .error e
    | .ok (res, st3) => .ok (Int.ofNat ((res.headD 0) &&& 0xf), st3)

/-- Little-endian serialisation of one 32-bit word (`put(std::ostream&, uint32_t)`). -/
def encodeWordLE (val : Nat) : List Nat :=
  [val &&& 0xFF, (val >>> 8) &&& 0xFF, (val >>> 16) &&& 0xFF, (val >>> 24) &&& 0xFF]

/-- VDM encoding as built in `EnterDFUMode`: header byte
`(uint8_t)((3 << 4) | words.size())`, then each word little-endian. -/
def encodeVDM (words : List Nat) : List Nat :=
  (((3 <<< 4) ||| words.length) % 256) :: words.flatMap encodeWordLE

/-- The fixed DFU word sequence `{0x5ac8012, 0x106, 0x80010000}`. -/
def dfuWords : List Nat := [0x5ac8012, 0x106, 0x80010000]

/-- The multi-character literal `'DBMa'`. -/
def cDBMa : Nat := 0x44424D61

/-- The multi-character literal `'VDMs'`. -/
def cVDMs : Nat := 0x56444D73

/-- The ASCII bytes of the magic `"DBMa"` compared against the mode register. -/
def magicDBMa : List Nat := [0x44, 0x42, 0x4D, 0x61]

/-- One handshake attempt iteration of the `for` loop in `EnterDFUMode`:
issue the `'DBMa'` command (result ignored), read mode register 3; stop on a
`"DBMa"` prefix, otherwise retry while fuel remains.  Returns whether the
mode was entered. -/
def enterDFUAux (d : Dev) : Nat → St → Except Unit (Bool × St)
  | 0, st => .ok (false, st)
  | n + 1, st =>
      match command d st 0 cDBMa [] with
      | .error e => .error e
      | .ok (_, st1) =>
          match readRegister d st1 0 3 with
          | .error e => .error e
          | .ok (mode, st2) =>
              if mode.take 4 = magicDBMa then .ok (true, st2)
              else enterDFUAux d n st2

/-- Result of `EnterDFUMode`: either the DFU VDM was sent (with the command's
returned code and the reply-register bytes), or entry failed after the
retries (with the 4 diagnostic mode-register bytes that get printed). -/
inductive DFUResult where
  | entered (res : Int) (reply : List Nat)
  | failedDFU (modeBytes : List Nat)
  deriving Repr, DecidableEq

/-- `EnterDFUMode`: 10 handshake attempts; on success build and send the DFU
VDM via `command(0, 'VDMs', args)` and read reply register `0x4d`; on failure
perform one more mode-register read for the diagnostic print and return. -/
def enterDFUMode (d : Dev) (st : St) : Except Unit (DFUResult × St) :=
  match enterDFUAux d 10 st with
  | .error e => .error e
  | .ok (entered, st1) =>
      if entered then
        match command d st1 0 cVDMs (encodeVDM dfuWords) with
        | .error e => .error e
        | .ok (res, st2) =>
            match readRegister d st2 0 0x4d with
            | .error e => .error e
            | .ok (reply, st3) => .ok (.entered res reply, st3)
      else
        match readRegister d st1 0 3 with
        | .error e => .error e
        | .ok (mode, st2) => .ok (.failedDFU (mode.take 4), st2)

/-- Codes of the Command primitive calls in a trace, in order. -/
def cmdCodes (tr : List Ev) : List Nat :=
  tr.filterMap fun e =>
    match e with
    | .cmdEv _ c => some c
    | _ => none

/-- Values returned by reads of the mode register (dataAddr 3), in order. -/
def modeReads (tr : List Ev) : List (List Nat) :=
  tr.filterMap fun e =>
    match e with
    | .readEv _ 3 v => some v
    | _ => none

/-- 1-based index of the first mode-register value whose first 4 bytes are
the `"DBMa"` magic. -/
def firstMatchIdx : List (List Nat) → Option Nat
  | [] => none
  | v :: rest =>
      if v.take 4 = magicDBMa then some 1 else (firstMatchIdx rest).map (· + 1)

/-- C1 helper statement tried concretely. -/
theorem encodeVDM_dfuWords_eq :
    encodeVDM dfuWords =
      [0x33, 0x12, 0x80, 0xAC, 0x05, 0x06, 0x01, 0x00, 0x00, 0x00, 0x00, 0x01, 0x80] := by
  decide

/-- C1: encoding the fixed DFU word sequence `[0x05AC8012, 0x00000106,
0x80010000]` yields exactly 13 bytes; byte 0 is `0x33 = (3 << 4) | 3`; bytes
1–4 are `0x12 0x80 0xAC 0x05`, i.e. the first word serialised little-endian;
and the whole payload is the three words little-endian in input order after
the header byte. -/
theorem vdm_encoding_fixed :
    (encodeVDM dfuWords).length = 13 ∧
    (encodeVDM dfuWords).headD 0 = 0x33 ∧
    (encodeVDM dfuWords).take 5 = [0x33, 0x12, 0x80, 0xAC, 0x05] ∧
    encodeVDM dfuWords =
      ((3 <<< 4) ||| 3) :: (encodeWordLE 0x05AC8012 ++ encodeWordLE 0x00000106 ++ encodeWordLE 0x80010000) := by
  decide

lemma cmdCodes_append (a b : List Ev) : cmdCodes (a ++ b) = cmdCodes a ++ cmdCodes b := by
  simp [cmdCodes]

lemma modeReads_append (a b : List Ev) : modeReads (a ++ b) = modeReads a ++ modeReads b := by
  simp [modeReads]

lemma cmdCodes_readEv (c a : Nat) (v : List Nat) : cmdCodes [Ev.readEv c a v] = [] := rfl

lemma cmdCodes_cmdEv (c k : Nat) : cmdCodes [Ev.cmdEv c k] = [k] := rfl

lemma modeReads_readEv3 (c : Nat) (v : List Nat) : modeReads [Ev.readEv c 3 v] = [v] := rfl

lemma firstMatchIdx_cons_pos {v : List Nat} (l : List (List Nat))
    (h : v.take 4 = magicDBMa) : firstMatchIdx (v :: l) = some 1 := by
  simp [firstMatchIdx, h]

lemma firstMatchIdx_cons_neg {v : List Nat} (l : List (List Nat))
    (h : v.take 4 ≠ magicDBMa) :
    firstMatchIdx (v :: l) = (firstMatchIdx l).map (· + 1) := by
  simp [firstMatchIdx, h]

lemma readRegister_ok {d : Dev} {st : St} {chip a : Nat} {b : List Nat} {st' : St}
    (h : readRegister d st chip a = .ok (b, st')) :
    d.readResp st.readIx = some b ∧
    st' = { st with readIx := st.readIx + 1,
                    trace := st.trace ++ [.readEv chip a b] } := by
  unfold readRegister at h
  cases hr : d.readResp st.readIx with
  | none => rw [hr] at h; cases h
  | some v =>
      rw [hr] at h
      injection h with h
      injection h with h1 h2
      cases h1
      exact ⟨rfl, h2.symm⟩

/-- Trace shape of a completed `command` call: the new events contain exactly
one Command (with the given code) and no mode-register read. -/
lemma command_trace {d : Dev} {st : St} {chip cmd : Nat} {args : List Nat}
    {r : Int} {st' : St} (h : command d st chip cmd args = .ok (r, st')) :
    ∃ Δ, st'.trace = st.trace ++ Δ ∧ cmdCodes Δ = [cmd] ∧ modeReads Δ = [] := by
  unfold command at h
  set st1 := if args.isEmpty then st else writeIgnore d st chip 9 args with hst1
  have htr1 : ∃ Δ₀, st1.trace = st.trace ++ Δ₀ ∧ cmdCodes Δ₀ = [] ∧ modeReads Δ₀ = [] := by
    by_cases he : args.isEmpty
    · refine ⟨[], ?_, rfl, rfl⟩
      simp [hst1, he]
    · refine ⟨[.writeEv chip 9 args], ?_, rfl, rfl⟩
      simp [hst1, he, writeIgnore]
  obtain ⟨Δ₀, hΔ₀, hc₀, hm₀⟩ := htr1
  by_cases hs : d.cmdResp st1.cmdIx ≠ 0
  · simp only [if_pos hs] at h
    injection h with h
    injection h with h1 h2
    refine ⟨Δ₀ ++ [.cmdEv chip cmd], ?_, ?_, ?_⟩
    · rw [← h2]; simp [hΔ₀]
    · rw [cmdCodes_append, hc₀]; rfl
    · rw [modeReads_append, hm₀]; rfl
  · simp only [if_neg hs] at h
    cases hrr : readRegister d { st1 with cmdIx := st1.cmdIx + 1,
                                          trace := st1.trace ++ [.cmdEv chip cmd] } chip 9 with
    | error e => rw [hrr] at h; cases h
    | ok p =>
        obtain ⟨res, st3⟩ := p
        rw [hrr] at h
        injection h with h
        injection h with h1 h2
        obtain ⟨-, hst3⟩ := readRegister_ok hrr
        refine ⟨Δ₀ ++ [.cmdEv chip cmd, .readEv chip 9 res], ?_, ?_, ?_⟩
        · rw [← h2, hst3]; simp [hΔ₀]
        · rw [cmdCodes_append, hc₀]; rfl
        · rw [modeReads_append, hm₀]; rfl

/-- Trace/result shape of a completed run of the handshake loop: the new
events consist of one `'DBMa'` Command per attempt and one mode-register
read per attempt; on `true` the last mode read is the first (and only)
match, on `false` all `fuel` mode reads mismatch. -/
lemma enterDFUAux_spec (d : Dev) :
    ∀ (fuel : Nat) (st : St) (b : Bool) (st' : St),
      enterDFUAux d fuel st = .ok (b, st') →
      ∃ Δ, st'.trace = st.trace ++ Δ ∧
        cmdCodes Δ = List.replicate (modeReads Δ).length cDBMa ∧
        (b = true → 1 ≤ (modeReads Δ).length ∧ (modeReads Δ).length ≤ fuel ∧
          firstMatchIdx (modeReads Δ) = some (modeReads Δ).length) ∧
        (b = false → (modeReads Δ).length = fuel ∧ firstMatchIdx (modeReads Δ) = none) := by
  intro fuel
  induction fuel with
  | zero =>
      intro st b st' h
      simp only [enterDFUAux] at h
      injection h with h
      injection h with h1 h2
      subst h1; subst h2
      exact ⟨[], by simp, rfl, by simp, by simp [modeReads, firstMatchIdx]⟩
  | succ n ih =>
      intro st b st' h
      cases hc : command d st 0 cDBMa [] with
      | error e =>
          simp only [enterDFUAux, hc] at h
          exact Except.noConfusion h
      | ok p =>
          obtain ⟨r, st1⟩ := p
          simp only [enterDFUAux, hc] at h
          obtain ⟨Δc, hΔc, hcc, hmc⟩ := command_trace hc
          cases hrr : readRegister d st1 0 3 with
          | error e =>
              simp only [hrr] at h
              exact Except.noConfusion h
          | ok q =>
              obtain ⟨mode, st2⟩ := q
              simp only [hrr] at h
              obtain ⟨hresp, hst2⟩ := readRegister_ok hrr
              by_cases hm : mode.take 4 = magicDBMa
              · rw [if_pos hm] at h
                injection h with h
                injection h with h1 h2
                subst h1
                refine ⟨Δc ++ [.readEv 0 3 mode], ?_, ?_, ?_, by simp⟩
                · rw [← h2, hst2]; simp [hΔc]
                · rw [cmdCodes_append, modeReads_append, hcc, hmc]
                  rfl
                · intro _
                  rw [modeReads_append, hmc, modeReads_readEv3, List.nil_append]
                  exact ⟨by simp, by simp, firstMatchIdx_cons_pos [] hm⟩
              · rw [if_neg hm] at h
                obtain ⟨Δ', hΔ', hcc', hrest⟩ := ih st2 b st' h
                refine ⟨Δc ++ [.readEv 0 3 mode] ++ Δ', ?_, ?_, ?_, ?_⟩
                · rw [hΔ', hst2]; simp [hΔc]
                · rw [cmdCodes_append, cmdCodes_append, modeReads_append, modeReads_append,
                      hcc, hmc, hcc', cmdCodes_readEv, modeReads_readEv3]
                  simp [List.replicate_succ]
                · intro hb
                  obtain ⟨h1, h2, h3⟩ := hrest.1 hb
                  rw [modeReads_append, modeReads_append, hmc, modeReads_readEv3,
                      List.nil_append, List.singleton_append]
                  refine ⟨by simp, by simp; omega, ?_⟩
                  rw [firstMatchIdx_cons_neg _ hm, h3]
                  simp
                · intro hb
                  obtain ⟨h1, h2⟩ := hrest.2 hb
                  rw [modeReads_append, modeReads_append, hmc, modeReads_readEv3,
                      List.nil_append, List.singleton_append]
                  refine ⟨by simp; omega, ?_⟩
                  rw [firstMatchIdx_cons_neg _ hm, h2]
                  rfl

lemma firstMatchIdx_pos {l : List (List Nat)} {k : Nat}
    (h : firstMatchIdx l = some k) : 1 ≤ k := by
  induction l generalizing k with
  | nil => simp [firstMatchIdx] at h
  | cons v rest ih =>
      by_cases hm : v.take 4 = magicDBMa
      · rw [firstMatchIdx_cons_pos _ hm] at h
        injection h with h
        omega
      · rw [firstMatchIdx_cons_neg _ hm] at h
        cases hr : firstMatchIdx rest with
        | none => rw [hr] at h; cases h
        | some j =>
            rw [hr, Option.map_some'] at h
            injection h with h
            omega

lemma firstMatchIdx_mem_take {l : List (List Nat)} {k n : Nat}
    (h : firstMatchIdx l = some k) (hkn : k ≤ n) :
    ∃ v ∈ l.take n, v.take 4 = magicDBMa := by
  induction l generalizing k n with
  | nil => simp [firstMatchIdx] at h
  | cons v rest ih =>
      have hk1 : 1 ≤ k := firstMatchIdx_pos h
      cases n with
      | zero => omega
      | succ m =>
          by_cases hm : v.take 4 = magicDBMa
          · refine ⟨v, ?_, hm⟩
            rw [List.take_succ_cons]
            exact List.mem_cons_self v _
          · rw [firstMatchIdx_cons_neg _ hm] at h
            cases hr : firstMatchIdx rest with
            | none => rw [hr] at h; cases h
            | some j =>
                rw [hr, Option.map_some'] at h
                injection h with h
                obtain ⟨w, hw, hwm⟩ := ih hr (show j ≤ m by omega)
                refine ⟨w, ?_, hwm⟩
                rw [List.take_succ_cons]
                exact List.mem_cons_of_mem _ hw

lemma firstMatchIdx_append_none {ms l : List (List Nat)} {k : Nat}
    (hnone : firstMatchIdx ms = none) (h : firstMatchIdx (ms ++ l) = some k) :
    ms.length < k := by
  induction ms generalizing k with
  | nil => exact firstMatchIdx_pos h
  | cons v rest ih =>
      by_cases hm : v.take 4 = magicDBMa
      · rw [firstMatchIdx_cons_pos _ hm] at hnone; cases hnone
      · rw [firstMatchIdx_cons_neg _ hm] at hnone
        rw [List.cons_append, firstMatchIdx_cons_neg _ hm] at h
        cases hn : firstMatchIdx rest with
        | some m => rw [hn, Option.map_some'] at hnone; cases hnone
        | none =>
            cases hr : firstMatchIdx (rest ++ l) with
            | none => rw [hr] at h; cases h
            | some j =>
                rw [hr, Option.map_some'] at h
                injection h with h
                have := ih hn hr
                simp only [List.length_cons]
                omega

/-- Full characterization of a completed `EnterDFUMode` run started from the
fresh state: either the mode was entered after `k ≤ 10` attempts (mode reads
trace has its first `"DBMa"` match exactly at its end, `k` handshake
commands then one VDM command were issued), or all 10 attempts mismatched
(10 handshake commands, no VDM command, one extra diagnostic mode read whose
first 4 bytes are the reported ones). -/
lemma enterDFUMode_spec {d : Dev} {res : DFUResult} {st' : St}
    (h : enterDFUMode d st0 = .ok (res, st')) :
    (∃ r reply, res = .entered r reply ∧
       1 ≤ (modeReads st'.trace).length ∧ (modeReads st'.trace).length ≤ 10 ∧
       firstMatchIdx (modeReads st'.trace) = some (modeReads st'.trace).length ∧
       cmdCodes st'.trace =
         List.replicate (modeReads st'.trace).length cDBMa ++ [cVDMs]) ∨
    (∃ msA extra, res = .failedDFU (extra.take 4) ∧
       modeReads st'.trace = msA ++ [extra] ∧ msA.length = 10 ∧
       firstMatchIdx msA = none ∧
       cmdCodes st'.trace = List.replicate 10 cDBMa) := by
  cases ha : enterDFUAux d 10 st0 with
  | error e =>
      simp only [enterDFUMode, ha] at h
      exact Except.noConfusion h
  | ok p =>
      obtain ⟨entered, st1⟩ := p
      simp only [enterDFUMode, ha] at h
      obtain ⟨Δa, hΔa, hca, htrue, hfalse⟩ := enterDFUAux_spec d 10 st0 entered st1 ha
      have hΔa0 : st1.trace = Δa := by simpa [st0] using hΔa
      cases entered with
      | true =>
          rw [if_pos rfl] at h
          obtain ⟨h1, h2, h3⟩ := htrue rfl
          cases hcm : command d st1 0 cVDMs (encodeVDM dfuWords) with
          | error e =>
              simp only [hcm] at h
              exact Except.noConfusion h
          | ok q =>
              obtain ⟨r, st2⟩ := q
              simp only [hcm] at h
              obtain ⟨Δv, hΔv, hcv, hmv⟩ := command_trace hcm
              cases hrp : readRegister d st2 0 0x4d with
              | error e =>
                  simp only [hrp] at h
                  exact Except.noConfusion h
              | ok q2 =>
                  obtain ⟨reply, st3⟩ := q2
                  simp only [hrp] at h
                  injection h with h
                  injection h with he1 he2
                  obtain ⟨hresp, hst3⟩ := readRegister_ok hrp
                  left
                  refine ⟨r, reply, he1.symm, ?_⟩
                  have htr : st'.trace = Δa ++ Δv ++ [Ev.readEv 0 0x4d reply] := by
                    rw [← he2, hst3, hΔv, hΔa0]
                  have hmr : modeReads st'.trace = modeReads Δa := by
                    rw [htr, modeReads_append, modeReads_append, hmv]
                    simp [modeReads]
                  have hcc : cmdCodes st'.trace =
                      cmdCodes Δa ++ [cVDMs] := by
                    rw [htr, cmdCodes_append, cmdCodes_append, hcv, cmdCodes_readEv]
                    simp
                  rw [hmr, hcc, hca]
                  exact ⟨h1, h2, h3, rfl⟩
      | false =>
          rw [if_neg (by simp)] at h
          obtain ⟨h1, h2⟩ := hfalse rfl
          cases hrp : readRegister d st1 0 3 with
          | error e =>
              simp only [hrp] at h
              exact Except.noConfusion h
          | ok q2 =>
              obtain ⟨mode, st2⟩ := q2
              simp only [hrp] at h
              injection h with h
              injection h with he1 he2
              obtain ⟨hresp, hst2⟩ := readRegister_ok hrp
              right
              refine ⟨modeReads Δa, mode, he1.symm, ?_, ?_, ?_, ?_⟩
              · rw [← he2, hst2, hΔa0, modeReads_append, modeReads_readEv3]
              · rw [h1]
              · exact h2
              · rw [← he2, hst2, hΔa0, cmdCodes_append, cmdCodes_readEv, hca, h1]
                simp

lemma firstMatchIdx_none {ms : List (List Nat)} (h : firstMatchIdx ms = none) :
    ∀ v ∈ ms, v.take 4 ≠ magicDBMa := by
  induction ms with
  | nil => intro v hv; cases hv
  | cons w rest ih =>
      intro v hv
      by_cases hm : w.take 4 = magicDBMa
      · rw [firstMatchIdx_cons_pos _ hm] at h; cases h
      · rw [firstMatchIdx_cons_neg _ hm] at h
        rcases List.mem_cons.mp hv with rfl | hv'
        · exact hm
        · cases hr : firstMatchIdx rest with
          | some j => rw [hr, Option.map_some'] at h; cases h
          | none => exact ih hr v hv'

/-- C2: for every completed run of the DFU entry sequence started from the
fresh state, if attempt `k` (`1 ≤ k ≤ 10`) is the first on which the mode
register's first four bytes read `"DBMa"`, then the Command-primitive calls
issued are exactly `k` `'DBMa'` commands followed by one `'VDMs'` command;
and if none of the 10 attempts reads `"DBMa"`, the sequencer reports Failed
and no `'VDMs'` command is ever issued in that run. -/
theorem dfu_handshake_trace {d : Dev} {res : DFUResult} {st' : St}
    (hrun : enterDFUMode d st0 = .ok (res, st')) :
    (∀ k, 1 ≤ k → k ≤ 10 → firstMatchIdx (modeReads st'.trace) = some k →
        cmdCodes st'.trace = List.replicate k cDBMa ++ [cVDMs]) ∧
    ((∀ v ∈ (modeReads st'.trace).take 10, v.take 4 ≠ magicDBMa) →
        (∃ b, res = DFUResult.failedDFU b) ∧ cVDMs ∉ cmdCodes st'.trace) := by
  rcases enterDFUMode_spec hrun with
    ⟨r, reply, hres, h1, h2, h3, h4⟩ | ⟨msA, extra, hres, hmr, hlen, hnone, hcodes⟩
  · constructor
    · intro k _ _ hfm
      have hk : (modeReads st'.trace).length = k := by
        have := h3.symm.trans hfm
        injection this
      rw [h4, hk]
    · intro hall
      exfalso
      obtain ⟨v, hv, hvm⟩ := firstMatchIdx_mem_take h3 h2
      exact hall v hv hvm
  · constructor
    · intro k _ hk10 hfm
      exfalso
      rw [hmr] at hfm
      have hlt := firstMatchIdx_append_none hnone hfm
      omega
    · intro _
      refine ⟨⟨extra.take 4, hres⟩, ?_⟩
      rw [hcodes]
      intro hmem
      exact absurd (List.eq_of_mem_replicate hmem) (by decide)

/-- A device on which the first handshake attempt already reads `"DBMa"`
(every Command call reports a nonzero status, every Read returns the
`"DBMa"` bytes). -/
def dW : Dev := ⟨fun _ => some [0x44, 0x42, 0x4D, 0x61], fun _ => 0, fun _ => 1⟩

theorem dfu_handshake_trace_witness :
    ∃ res st', enterDFUMode dW st0 = .ok (res, st') ∧
      ((∀ k, 1 ≤ k → k ≤ 10 → firstMatchIdx (modeReads st'.trace) = some k →
          cmdCodes st'.trace = List.replicate k cDBMa ++ [cVDMs]) ∧
       ((∀ v ∈ (modeReads st'.trace).take 10, v.take 4 ≠ magicDBMa) →
          (∃ b, res = DFUResult.failedDFU b) ∧ cVDMs ∉ cmdCodes st'.trace)) := by
  refine ⟨_, _, rfl, ?_⟩
  exact @dfu_handshake_trace dW _ _ rfl

/-- C9 (amended): after ten mismatched attempts the sequencer performs one
additional mode-register read (so 11 mode reads occur), and the diagnostic
bytes it reports are the first four bytes of that 11th read, not of the
tenth attempt's read. -/
theorem dfu_failed_diag_bytes {d : Dev} {b : List Nat} {st' : St}
    (h : enterDFUMode d st0 = .ok (.failedDFU b, st')) :
    (modeReads st'.trace).length = 11 ∧
    b = ((modeReads st'.trace).getD 10 []).take 4 ∧
    ∀ v ∈ (modeReads st'.trace).take 10, v.take 4 ≠ magicDBMa := by
  rcases enterDFUMode_spec h with
    ⟨r, reply, hres, _⟩ | ⟨msA, extra, hres, hmr, hlen, hnone, hcodes⟩
  · cases hres
  · injection hres with hb
    have htake : (msA ++ [extra]).take 10 = msA := by
      rw [← hlen]
      exact List.take_left msA [extra]
    refine ⟨?_, ?_, ?_⟩
    · rw [hmr]; simp [hlen]
    · rw [hb, hmr, List.getD_append_right msA [extra] [] 10 (by omega), hlen]
      rfl
    · rw [hmr, htake]
      exact firstMatchIdx_none hnone

/-- A device on which all ten handshake attempts read `[1, 1, 1, 1]` from
the mode register while the extra post-loop diagnostic read (the 11th Read
call) returns `[9, 9, 9, 9]`. -/
def dC : Dev :=
  ⟨fun ix => if ix < 10 then some [1, 1, 1, 1] else some [9, 9, 9, 9],
   fun _ => 0, fun _ => 1⟩

/-- C9 counterexample: on `dC` the DFU entry sequence fails after ten
mismatched attempts, 11 (not 10) mode-register reads have occurred, the
tenth attempt read `[1, 1, 1, 1]`, and the reported diagnostic bytes are
`[9, 9, 9, 9]` — the bytes of the additional post-loop read, different from
the tenth attempt's bytes. -/
theorem dfu_diag_counterexample :
    ∃ st', enterDFUMode dC st0 = .ok (.failedDFU [9, 9, 9, 9], st') ∧
      (modeReads st'.trace).length = 11 ∧
      (modeReads st'.trace).getD 9 [] = [1, 1, 1, 1] ∧
      ([9, 9, 9, 9] : List Nat) ≠ [1, 1, 1, 1] :=
  ⟨_, rfl, by decide, by decide, by decide⟩

theorem dfu_failed_diag_bytes_witness :
    ∃ st', enterDFUMode dC st0 = .ok (.failedDFU [9, 9, 9, 9], st') ∧
      ((modeReads st'.trace).length = 11 ∧
       ([9, 9, 9, 9] : List Nat) = ((modeReads st'.trace).getD 10 []).take 4 ∧
       ∀ v ∈ (modeReads st'.trace).take 10, v.take 4 ≠ magicDBMa) := by
  refine ⟨_, rfl, ?_⟩
  exact @dfu_failed_diag_bytes dC [9, 9, 9, 9] _ rfl

lemma command_fail_eq (d : Dev) (st : St) (chip cmd : Nat) (args : List Nat)
    (hs : d.cmdResp st.cmdIx ≠ 0) :
    command d st chip cmd args =
      .ok (-1, { st with
        writeIx := if args.isEmpty then st.writeIx else st.writeIx + 1,
        cmdIx := st.cmdIx + 1,
        trace := st.trace ++ (if args.isEmpty then [] else [.writeEv chip 9 args])
                   ++ [.cmdEv chip cmd] }) := by
  by_cases he : args.isEmpty <;>
    simp [command, writeIgnore, he, hs]

lemma command_success_eq (d : Dev) (st : St) (chip cmd : Nat) (args : List Nat)
    (b : List Nat) (hs : d.cmdResp st.cmdIx = 0) (hb : d.readResp st.readIx = some b) :
    command d st chip cmd args =
      .ok (Int.ofNat ((b.headD 0) &&& 0xf), { st with
        readIx := st.readIx + 1,
        writeIx := if args.isEmpty then st.writeIx else st.writeIx + 1,
        cmdIx := st.cmdIx + 1,
        trace := st.trace ++ (if args.isEmpty then [] else [.writeEv chip 9 args])
                   ++ [.cmdEv chip cmd, .readEv chip 9 b] }) := by
  by_cases he : args.isEmpty <;>
    simp [command, readRegister, writeIgnore, he, hs, hb]

lemma command_error_eq (d : Dev) (st : St) (chip cmd : Nat) (args : List Nat)
    (hs : d.cmdResp st.cmdIx = 0) (hb : d.readResp st.readIx = none) :
    command d st chip cmd args = .error () := by
  by_cases he : args.isEmpty <;>
    simp [command, readRegister, writeIgnore, he, hs, hb]

/-- A device whose first Write reports a nonzero (failed) status. -/
def d3 : Dev := ⟨fun _ => some [], fun _ => 1, fun _ => 1⟩

/-- C3 counterexample: on `d3` the transport write of the non-empty argument
bytes to register 9 fails (status 1), yet the call does not raise a
TransportFailure (it completes with a result) and the command IS issued to
the transport afterwards. -/
theorem command_write_fail_counterexample :
    d3.writeResp 0 ≠ 0 ∧
    (∃ st', command d3 st0 0 cVDMs [1] = .ok (-1, st') ∧
       Ev.cmdEv 0 cVDMs ∈ st'.trace) := by
  refine ⟨by decide, _, rfl, by decide⟩

/-- C3 (amended): for every call with non-empty argBytes, the status of the
transport write to register 9 is ignored: the call's outcome does not depend
on the write statuses at all, and on every completed call the write event is
followed by the command event — the command is issued regardless of the
write's status, and no failure is ever raised because of the write. -/
theorem command_arg_write_ignored (d : Dev) (w : Nat → Nat) (st : St)
    (chip cmd : Nat) (args : List Nat) (h : args ≠ []) :
    command { d with writeResp := w } st chip cmd args = command d st chip cmd args ∧
    (∀ r st', command d st chip cmd args = .ok (r, st') →
       ∃ tail, st'.trace = st.trace ++ Ev.writeEv chip 9 args :: Ev.cmdEv chip cmd :: tail) := by
  have he : args.isEmpty = false := by
    cases args with
    | nil => cases h rfl
    | cons a l => rfl
  constructor
  · rfl
  · intro r st' hc
    by_cases hs : d.cmdResp st.cmdIx = 0
    · cases hb : d.readResp st.readIx with
      | none =>
          rw [command_error_eq d st chip cmd args hs hb] at hc
          exact Except.noConfusion hc
      | some b =>
          rw [command_success_eq d st chip cmd args b hs hb] at hc
          injection hc with hc
          injection hc with hc1 hc2
          refine ⟨[Ev.readEv chip 9 b], ?_⟩
          rw [← hc2]
          simp [he]
    · rw [command_fail_eq d st chip cmd args hs] at hc
      injection hc with hc
      injection hc with hc1 hc2
      refine ⟨[], ?_⟩
      rw [← hc2]
      simp [he]

/-- Concrete instantiation data for `command_arg_write_ignored`. -/
def d3b : Dev := ⟨fun _ => some [], fun _ => 0, fun _ => 1⟩

theorem command_arg_write_ignored_witness :
    command { d3b with writeResp := fun _ => 7 } st0 0 cVDMs [1] = command d3b st0 0 cVDMs [1] ∧
    (∀ r st', command d3b st0 0 cVDMs [1] = .ok (r, st') →
       ∃ tail, st'.trace = st0.trace ++ Ev.writeEv 0 9 [1] :: Ev.cmdEv 0 cVDMs :: tail) :=
  command_arg_write_ignored d3b (fun _ => 7) st0 0 cVDMs [1] (by decide)

/-- C4: on every call to `command`, if the transport's Command primitive
reports a nonzero status the call returns the sentinel `-1` immediately and
performs no read of register 9 (the Read-call counter is untouched);
otherwise, with the result-register read returning bytes `b`, it performs
exactly one further read and returns `b[0] & 0xf`. -/
theorem command_result_paths (d : Dev) (st : St) (chip cmd : Nat) (args : List Nat) :
    (d.cmdResp st.cmdIx ≠ 0 →
        ∃ st', command d st chip cmd args = .ok (-1, st') ∧
          st'.readIx = st.readIx ∧ st'.cmdIx = st.cmdIx + 1) ∧
    (∀ b, d.cmdResp st.cmdIx = 0 → d.readResp st.readIx = some b →
        ∃ st', command d st chip cmd args = .ok (Int.ofNat ((b.headD 0) &&& 0xf), st') ∧
          st'.readIx = st.readIx + 1) := by
  constructor
  · intro hs
    exact ⟨_, command_fail_eq d st chip cmd args hs, rfl, rfl⟩
  · intro b hs hb
    exact ⟨_, command_success_eq d st chip cmd args b hs hb, rfl⟩

/-- A device whose Command primitive fails. -/
def d4 : Dev := ⟨fun _ => some [7, 0, 0, 0, 0, 0, 0, 0], fun _ => 0, fun _ => 1⟩

/-- A device whose Command primitive succeeds and whose register-9 read
returns byte 0 = 0x07. -/
def d5 : Dev := ⟨fun _ => some [7, 0, 0, 0, 0, 0, 0, 0], fun _ => 0, fun _ => 0⟩

theorem command_result_paths_witness :
    (∃ st', command d4 st0 0 cVDMs [] = .ok (-1, st') ∧
       st'.readIx = st0.readIx ∧ st'.cmdIx = st0.cmdIx + 1) ∧
    (∃ st', command d5 st0 0 cVDMs [] = .ok (7, st') ∧
       st'.readIx = st0.readIx + 1) := by
  constructor
  · exact (command_result_paths d4 st0 0 cVDMs []).1 (by decide)
  · exact (command_result_paths d5 st0 0 cVDMs []).2 [7, 0, 0, 0, 0, 0, 0, 0] rfl rfl

/-- One enumerated device candidate as `FindDevice` observes it: the `RID`
registry property (`none` when the property is absent), whether binding the
plugin instance succeeds (the constructor throwing is modelled as `false`),
and the result of reading connection-status register `0x3F` (`none` when the
read throws). -/
structure Candidate where
  rid : Option Int
  bindOk : Bool
  statusRead : Option (List Nat)
  deriving Repr, DecidableEq

/-- `FindDevice`'s enumeration loop: skip a candidate whose `RID` property is
absent or nonzero; inside the try-block, a binding failure or a failed
status read is caught and skips the candidate; a clear bit 0 skips the
candidate; otherwise the candidate is selected (its enumeration index is
returned) and enumeration stops.  `none` models the `nullptr` "none found"
return. -/
def FindDevice : List Candidate → Option Nat
  | [] => none
  | c :: rest =>
      match c.rid with
      | none => (FindDevice rest).map (· + 1)
      | some rid =>
          if rid ≠ 0 then (FindDevice rest).map (· + 1)
          else if c.bindOk = false then (FindDevice rest).map (· + 1)
          else
            match c.statusRead with
            | none => (FindDevice rest).map (· + 1)
            | some reg =>
                if (reg.headD 0) &&& 1 = 0 then (FindDevice rest).map (· + 1)
                else some 0

/-- The spec's selection condition for a candidate: `RID` present and zero,
a live transport handle bound, and connection-status bit 0 set. -/
def qualifies (c : Candidate) : Bool :=
  c.rid == some 0 && c.bindOk &&
    (match c.statusRead with
     | none => false
     | some reg => (reg.headD 0) % 2 == 1)

/-- C5: a candidate with absent or nonzero `RID` is never selected regardless
of its connection-status bit; a candidate with `RID = 0` whose status
register has bit 0 clear is skipped; the first candidate (in enumeration
order) with `RID = 0`, a live handle and bit 0 set is returned and
enumeration stops there; and when no candidate qualifies the locator
returns "none found" rather than an error. -/
theorem findDevice_selects_first_qualifying (cs : List Candidate) :
    (∀ i, FindDevice cs = some i →
        ∃ c, cs.get? i = some c ∧ qualifies c = true ∧
          ∀ j, j < i → ∀ c', cs.get? j = some c' → qualifies c' = false) ∧
    (FindDevice cs = none → ∀ c ∈ cs, qualifies c = false) := by
  induction cs with
  | nil =>
      refine ⟨fun i hi => ?_, fun _ c hc => absurd hc (List.not_mem_nil c)⟩
      simp [FindDevice] at hi
  | cons c rest ih =>
      have skipCase : ∀ (hq : qualifies c = false),
          (FindDevice (c :: rest) = (FindDevice rest).map (· + 1)) →
          (∀ i, FindDevice (c :: rest) = some i →
              ∃ c₀, (c :: rest).get? i = some c₀ ∧ qualifies c₀ = true ∧
                ∀ j, j < i → ∀ c', (c :: rest).get? j = some c' → qualifies c' = false) ∧
          (FindDevice (c :: rest) = none → ∀ c₀ ∈ c :: rest, qualifies c₀ = false) := by
        intro hq heq
        constructor
        · intro i hi
          rw [heq] at hi
          cases hr : FindDevice rest with
          | none => rw [hr] at hi; cases hi
          | some i₀ =>
              rw [hr, Option.map_some'] at hi
              injection hi with hi
              obtain ⟨c₀, hc₀, hqc₀, hmin⟩ := ih.1 i₀ hr
              refine ⟨c₀, ?_, hqc₀, ?_⟩
              · rw [← hi]; simpa using hc₀
              · intro j hj c' hc'
                cases j with
                | zero =>
                    rw [List.get?_cons_zero] at hc'
                    injection hc' with hc'
                    rw [← hc']; exact hq
                | succ j₀ =>
                    rw [List.get?_cons_succ] at hc'
                    exact hmin j₀ (by omega) c' hc'
        · intro hn c₀ hc₀
          rw [heq] at hn
          cases hr : FindDevice rest with
          | some i₀ => rw [hr, Option.map_some'] at hn; cases hn
          | none =>
              rcases List.mem_cons.mp hc₀ with rfl | hmem
              · exact hq
              · exact ih.2 hr c₀ hmem
      cases hrid : c.rid with
      | none =>
          have hq : qualifies c = false := by simp [qualifies, hrid]
          exact skipCase hq (by simp [FindDevice, hrid])
      | some rid =>
          by_cases hr0 : rid = 0
          · subst hr0
            by_cases hbind : c.bindOk = false
            · have hq : qualifies c = false := by simp [qualifies, hbind]
              exact skipCase hq (by simp [FindDevice, hrid, hbind])
            · have hbind' : c.bindOk = true := by
                cases hb : c.bindOk
                · exact absurd hb hbind
                · rfl
              cases hstat : c.statusRead with
              | none =>
                  have hq : qualifies c = false := by simp [qualifies, hstat]
                  exact skipCase hq (by simp [FindDevice, hrid, hbind', hstat])
              | some reg =>
                  by_cases hbit : (reg.headD 0) &&& 1 = 0
                  · have h2 : (reg.headD 0) % 2 = 0 := by
                      rw [← Nat.and_one_is_mod]; exact hbit
                    have hq : qualifies c = false := by
                      simp only [qualifies, hstat, hrid]
                      rw [h2]
                      simp
                    refine skipCase hq ?_
                    simp only [FindDevice, hrid, hstat]
                    rw [if_neg (by decide), if_neg hbind, if_pos hbit]
                  · have h2 : (reg.headD 0) % 2 = 1 := by
                      rw [Nat.and_one_is_mod] at hbit
                      omega
                    have hsel : FindDevice (c :: rest) = some 0 := by
                      simp only [FindDevice, hrid, hstat]
                      rw [if_neg (by decide), if_neg hbind, if_neg hbit]
                    have hq : qualifies c = true := by
                      simp only [qualifies, hstat, hrid]
                      rw [h2, hbind']
                      decide
                    constructor
                    · intro i hi
                      rw [hsel] at hi
                      injection hi with hi
                      refine ⟨c, ?_, hq, ?_⟩
                      · rw [← hi]; rfl
                      · intro j hj
                        omega
                    · intro hn
                      rw [hsel] at hn
                      cases hn
          · have hq : qualifies c = false := by
              simp only [qualifies, hrid]
              have hb : (some rid == some (0 : Int)) = false := by
                simp [hr0]
              rw [hb]
              simp
            refine skipCase hq ?_
            simp only [FindDevice, hrid]
            rw [if_pos hr0]

/-- A concrete enumeration: RID absent; RID = 1 and connected; RID = 0 but
status bit 0 clear; RID = 0 but binding fails; RID = 0, bound, bit 0 set
(selected); one further qualifying candidate that is never reached. -/
def csW : List Candidate :=
  [⟨none, true, some [1]⟩,
   ⟨some 1, true, some [1]⟩,
   ⟨some 0, true, some [0]⟩,
   ⟨some 0, false, some [1]⟩,
   ⟨some 0, true, some [3]⟩,
   ⟨some 0, true, some [1]⟩]

theorem findDevice_selects_first_qualifying_witness :
    ∃ c, csW.get? 4 = some c ∧ qualifies c = true ∧
      ∀ j, j < 4 → ∀ c', csW.get? j = some c' → qualifies c' = false :=
  (findDevice_selects_first_qualifying csW).1 4 rfl

/-- Outcome of one status poll: the bytes read from register `0x3F`, or
`none` when the read throws (transport error, caught by the loop). -/
def isConnected : Option (List Nat) → Bool
  | none => false
  | some b => decide ((b.headD 0) &&& 1 ≠ 0)

/-- Outcome of one non-blocking single-character input check: `none` models
`read` returning no byte (`n <= 0`). -/
def isRestoreKey : Option Char → Bool
  | none => false
  | some c => c == 'r' || c == 'R'

inductive Outcome where
  | disconnected
  | restoreRequested
  deriving Repr, DecidableEq

/-- The first monitoring loop of `main`: each iteration reads the status
register (break to Disconnected on clear bit 0 or on a caught transport
error, before any input check), then consumes at most one pending input
character (break to RestoreRequested on `'r'`/`'R'`, silently discard
anything else) and repeats.  The status-poll and key streams are given as
lists; `none` result means both streams were exhausted with the loop still
running.  On exit the unconsumed status stream is returned for the
follow-up wait loop. -/
def monitor1 : List (Option (List Nat)) → List (Option Char) →
    Option (Outcome × List (Option (List Nat)))
  | [], _ => none
  | s :: ss, ks =>
      if isConnected s = false then some (.disconnected, ss)
      else
        match ks with
        | [] => none
        | k :: ks1 =>
            if isRestoreKey k then some (.restoreRequested, ss)
            else monitor1 ss ks1

/-- The post-restore wait loop of `main`: disconnect-only polling, no input
checks.  `true` when a disconnect (clear bit or transport error) is
observed before the stream runs out. -/
def monitor2 : List (Option (List Nat)) → Bool
  | [] => false
  | s :: ss => if isConnected s = false then true else monitor2 ss

/-- What a finished monitoring phase did: how many times the restore
collaborator (`run_restore`) was invoked. -/
structure SessionOutcome where
  restores : Nat
  deriving Repr, DecidableEq

/-- The monitoring phase of one `main`-loop iteration: run the first loop;
on Disconnected finish with no restore; on RestoreRequested invoke the
restore collaborator once and run the disconnect-only wait loop on the
remaining status stream. -/
def runSession (ss : List (Option (List Nat))) (ks : List (Option Char)) :
    Option SessionOutcome :=
  match monitor1 ss ks with
  | none => none
  | some (.disconnected, _) => some ⟨0⟩
  | some (.restoreRequested, rest) => if monitor2 rest then some ⟨1⟩ else none

/-- C6: as soon as a status poll reads bit 0 clear or the read raises a
transport error (`s` with `isConnected s = false`, which covers `none` =
transport error), the monitor reports Disconnected within that very poll
iteration — even if a restore key is pending — and the session ends with
zero restore invocations; the transport error is absorbed (the session
still produces an outcome) rather than propagated. -/
theorem monitor_disconnect_immediate (s : Option (List Nat))
    (ss : List (Option (List Nat))) (ks : List (Option Char))
    (h : isConnected s = false) :
    monitor1 (s :: ss) ks = some (.disconnected, ss) ∧
    runSession (s :: ss) ks = some ⟨0⟩ := by
  have h1 : monitor1 (s :: ss) ks = some (.disconnected, ss) := by
    simp [monitor1, h]
  exact ⟨h1, by simp only [runSession, h1]⟩

theorem monitor_disconnect_immediate_witness :
    isConnected none = false ∧
    (monitor1 (none :: [some [1]]) [some 'r'] = some (.disconnected, [some [1]]) ∧
     runSession (none :: [some [1]]) [some 'r'] = some ⟨0⟩) :=
  ⟨rfl, monitor_disconnect_immediate none [some [1]] [some 'r'] rfl⟩

lemma monitor1_restore_trigger :
    ∀ (ss : List (Option (List Nat))) (ks : List (Option Char))
      (rest : List (Option (List Nat))),
      monitor1 ss ks = some (.restoreRequested, rest) →
      ∃ i s k, ss.get? i = some s ∧ ks.get? i = some k ∧
        isConnected s = true ∧ isRestoreKey k = true := by
  intro ss
  induction ss with
  | nil =>
      intro ks rest h
      simp [monitor1] at h
  | cons s ss ih =>
      intro ks rest h
      by_cases hc : isConnected s = false
      · simp only [monitor1] at h
        rw [if_pos hc] at h
        injection h with h
        injection h with h1 h2
        exact Outcome.noConfusion h1
      · have hc' : isConnected s = true := by
          cases hb : isConnected s
          · exact absurd hb hc
          · rfl
        cases ks with
        | nil =>
            simp only [monitor1] at h
            rw [if_neg hc] at h
            exact Option.noConfusion h
        | cons k ks1 =>
            simp only [monitor1] at h
            rw [if_neg hc] at h
            by_cases hk : isRestoreKey k = true
            · exact ⟨0, s, k, rfl, rfl, hc', hk⟩
            · rw [if_neg hk] at h
              obtain ⟨i, s', k', hs', hk', hcs, hks⟩ := ih ks1 rest h
              exact ⟨i + 1, s', k', by simpa using hs', by simpa using hk', hcs, hks⟩

/-- The first iteration at which the loop sees the device still connected
together with a pending restore key — with every earlier iteration
connected and key-free or key-discarding — exits the loop with
RestoreRequested right there, leaving the status stream after that
iteration for the wait loop. -/
lemma monitor1_first_trigger :
    ∀ (i : Nat) (ss : List (Option (List Nat))) (ks : List (Option Char)),
      (∀ j, j ≤ i → ∃ s, ss.get? j = some s ∧ isConnected s = true) →
      (∀ j, j < i → ∃ k, ks.get? j = some k ∧ isRestoreKey k = false) →
      (∃ k, ks.get? i = some k ∧ isRestoreKey k = true) →
      monitor1 ss ks = some (.restoreRequested, ss.drop (i + 1)) := by
  intro i
  induction i with
  | zero =>
      intro ss ks hconn hkeys hkey
      obtain ⟨s, hs, hcs⟩ := hconn 0 (le_refl 0)
      obtain ⟨k, hk, hks⟩ := hkey
      cases ss with
      | nil => cases hs
      | cons s0 ss1 =>
          cases ks with
          | nil => cases hk
          | cons k0 ks1 =>
              rw [List.get?_cons_zero] at hs hk
              injection hs with hs
              injection hk with hk
              have hcs0 : isConnected s0 = true := by rw [hs]; exact hcs
              have hks0 : isRestoreKey k0 = true := by rw [hk]; exact hks
              simp only [monitor1]
              rw [if_neg (by simp [hcs0]), if_pos hks0]
              rfl
  | succ i ih =>
      intro ss ks hconn hkeys hkey
      obtain ⟨s, hs, hcs⟩ := hconn 0 (by omega)
      obtain ⟨k, hk, hks⟩ := hkeys 0 (by omega)
      cases ss with
      | nil => cases hs
      | cons s0 ss1 =>
          cases ks with
          | nil => cases hk
          | cons k0 ks1 =>
              rw [List.get?_cons_zero] at hs hk
              injection hs with hs
              injection hk with hk
              have hcs0 : isConnected s0 = true := by rw [hs]; exact hcs
              have hks0 : isRestoreKey k0 = false := by rw [hk]; exact hks
              simp only [monitor1]
              rw [if_neg (by simp [hcs0]), if_neg (by simp [hks0])]
              have hconn1 : ∀ j, j ≤ i → ∃ s, ss1.get? j = some s ∧ isConnected s = true := by
                intro j hj
                have := hconn (j + 1) (by omega)
                simpa using this
              have hkeys1 : ∀ j, j < i → ∃ k, ks1.get? j = some k ∧ isRestoreKey k = false := by
                intro j hj
                have := hkeys (j + 1) (by omega)
                simpa using this
              have hkey1 : ∃ k, ks1.get? i = some k ∧ isRestoreKey k = true := by
                obtain ⟨k1, h1, h2⟩ := hkey
                exact ⟨k1, by simpa using h1, h2⟩
              have := ih ss1 ks1 hconn1 hkeys1 hkey1
              simpa [List.drop_succ_cons] using this

/-- C7: (never twice, never spontaneously) whenever the monitoring phase
completes, the restore collaborator was invoked at most once, and if it was
invoked at all then some poll iteration saw the device still connected
together with a pending `'r'`/`'R'` character; and (causality) when
iteration `i` is the first whose status poll finds the device connected
with an `'r'`/`'R'` character pending — all earlier iterations being
connected with a discarded non-restore character — the loop transitions to
RestoreRequested at exactly that iteration, the completed session performs
exactly one restore invocation (followed by the disconnect-only wait on the
remaining status stream), and the session outcome is independent of any
input beyond the trigger — the post-restore wait performs no further input
checks. -/
theorem restore_single (ss : List (Option (List Nat))) (ks : List (Option Char)) :
    (∀ r, runSession ss ks = some r →
        r.restores ≤ 1 ∧
        (r.restores = 1 →
           ∃ i s k, ss.get? i = some s ∧ ks.get? i = some k ∧
             isConnected s = true ∧ isRestoreKey k = true)) ∧
    (∀ i, (∀ j, j ≤ i → ∃ s, ss.get? j = some s ∧ isConnected s = true) →
          (∀ j, j < i → ∃ k, ks.get? j = some k ∧ isRestoreKey k = false) →
          (∃ k, ks.get? i = some k ∧ isRestoreKey k = true) →
        monitor1 ss ks = some (.restoreRequested, ss.drop (i + 1)) ∧
        (monitor2 (ss.drop (i + 1)) = true → runSession ss ks = some ⟨1⟩) ∧
        (∀ ks₂, (∀ j, j ≤ i → ks₂.get? j = ks.get? j) →
           runSession ss ks₂ = runSession ss ks)) := by
  constructor
  · intro r h
    unfold runSession at h
    split at h
    next hm =>
        exact Option.noConfusion h
    next snd hm =>
        injection h with h
        refine ⟨by rw [← h]; decide, fun h1 => ?_⟩
        rw [← h] at h1
        exact absurd h1 (by decide)
    next rest hm =>
        by_cases h2 : monitor2 rest = true
        · rw [if_pos h2] at h
          injection h with h
          refine ⟨by rw [← h], fun _ => ?_⟩
          exact monitor1_restore_trigger ss ks rest hm
        · rw [if_neg h2] at h
          exact Option.noConfusion h
  · intro i hconn hkeys hkey
    have hm := monitor1_first_trigger i ss ks hconn hkeys hkey
    have e1 : runSession ss ks =
        if monitor2 (ss.drop (i + 1)) = true then some ⟨1⟩ else none := by
      unfold runSession
      rw [hm]
    refine ⟨hm, ?_, ?_⟩
    · intro h2
      rw [e1, if_pos h2]
    · intro ks₂ hagree
      have hkeys₂ : ∀ j, j < i → ∃ k, ks₂.get? j = some k ∧ isRestoreKey k = false := by
        intro j hj
        obtain ⟨k, h1, h2⟩ := hkeys j hj
        exact ⟨k, by rw [hagree j (by omega)]; exact h1, h2⟩
      have hkey₂ : ∃ k, ks₂.get? i = some k ∧ isRestoreKey k = true := by
        obtain ⟨k, h1, h2⟩ := hkey
        exact ⟨k, by rw [hagree i (le_refl i)]; exact h1, h2⟩
      have hm₂ := monitor1_first_trigger i ss ks₂ hconn hkeys₂ hkey₂
      have e2 : runSession ss ks₂ =
          if monitor2 (ss.drop (i + 1)) = true then some ⟨1⟩ else none := by
        unfold runSession
        rw [hm₂]
      rw [e1, e2]

theorem restore_single_witness :
    ((⟨1⟩ : SessionOutcome).restores ≤ 1 ∧
     ((⟨1⟩ : SessionOutcome).restores = 1 →
        ∃ i s k, [some [1], some [1], some [0]].get? i = some s ∧
          [some 'x', some 'r'].get? i = some k ∧
          isConnected s = true ∧ isRestoreKey k = true)) ∧
    monitor1 [some [1], some [1], some [0]] [some 'x', some 'r'] =
      some (.restoreRequested, [some [0]]) ∧
    runSession [some [1], some [1], some [0]] [some 'x', some 'r'] = some ⟨1⟩ := by
  have h := restore_single [some [1], some [1], some [0]] [some 'x', some 'r']
  have hconn : ∀ j, j ≤ 1 →
      ∃ s, [some [1], some [1], some [0]].get? j = some s ∧ isConnected s = true := by
    intro j hj
    cases j with
    | zero => exact ⟨[1], by decide, by decide⟩
    | succ j1 =>
        cases j1 with
        | zero => exact ⟨[1], by decide, by decide⟩
        | succ j2 => omega
  have hkeys : ∀ j, j < 1 →
      ∃ k, [some 'x', some 'r'].get? j = some k ∧ isRestoreKey k = false := by
    intro j hj
    cases j with
    | zero => exact ⟨'x', by decide, by decide⟩
    | succ j1 => omega
  have hkey : ∃ k, [some 'x', some 'r'].get? 1 = some k ∧ isRestoreKey k = true :=
    ⟨'r', by decide, by decide⟩
  obtain ⟨hm, hrun, hind⟩ := h.2 1 hconn hkeys hkey
  have hrun1 : runSession [some [1], some [1], some [0]] [some 'x', some 'r'] =
      some ⟨1⟩ := hrun (by decide)
  exact ⟨h.1 ⟨1⟩ hrun1, hm, hrun1⟩

/-- C10: in a poll iteration where the device is still connected and the
(at most one) consumed pending character is not `'r'`/`'R'`, the character
is silently discarded and the loop simply continues on the remaining
streams — the monitoring outcome is unchanged; hence the loop exits only on
a clear bit 0, a transport error on the status read, or an `'r'`/`'R'`
character. -/
theorem monitor_iteration (s : Option (List Nat)) (ss : List (Option (List Nat)))
    (k : Option Char) (ks : List (Option Char))
    (hc : isConnected s = true) (hk : isRestoreKey k = false) :
    monitor1 (s :: ss) (k :: ks) = monitor1 ss ks ∧
    runSession (s :: ss) (k :: ks) = runSession ss ks := by
  have h1 : monitor1 (s :: ss) (k :: ks) = monitor1 ss ks := by
    simp [monitor1, hc, hk]
  exact ⟨h1, by simp only [runSession, h1]⟩

theorem monitor_iteration_witness :
    monitor1 (some [3] :: [none]) (some 'x' :: []) = monitor1 [none] [] ∧
    runSession (some [3] :: [none]) (some 'x' :: []) = runSession [none] [] :=
  monitor_iteration (some [3]) [none] (some 'x') [] rfl rfl

/-- One post-detection iteration of `main`'s loop body: run `EnterDFUMode`
(an escaping transport exception is caught by the outer handler and skips
monitoring, modelled as `none`), then — regardless of the DFU outcome —
run the monitoring phase. -/
def sessionRun (d : Dev) (ss : List (Option (List Nat))) (ks : List (Option Char)) :
    Option (DFUResult × Option SessionOutcome) :=
  match enterDFUMode d st0 with
  | .error _ => none
  | .ok (res, _) => some (res, runSession ss ks)

/-- C8: when the DFU entry step completes with HandshakeExhausted (all ten
attempts mismatched, reported as a Failed result), the session still
proceeds to the monitoring phase, which behaves exactly as it always does;
in particular a disconnect (clear bit or transport error) is still detected
there, so the DFU failure never prevents disconnect detection. -/
theorem dfu_failure_nonfatal (d : Dev) (b : List Nat) (st' : St)
    (h : enterDFUMode d st0 = .ok (.failedDFU b, st')) :
    (∀ ss ks, sessionRun d ss ks = some (.failedDFU b, runSession ss ks)) ∧
    (∀ s ss ks, isConnected s = false →
        sessionRun d (s :: ss) ks = some (.failedDFU b, some ⟨0⟩)) := by
  have h1 : ∀ ss ks, sessionRun d ss ks = some (.failedDFU b, runSession ss ks) := by
    intro ss ks
    simp only [sessionRun, h]
  refine ⟨h1, fun s ss ks hc => ?_⟩
  rw [h1 (s :: ss) ks]
  have h2 : runSession (s :: ss) ks = some ⟨0⟩ := by
    have hm : monitor1 (s :: ss) ks = some (.disconnected, ss) := by
      simp [monitor1, hc]
    simp only [runSession, hm]
  rw [h2]

/-- A device on which every handshake attempt reads `[0, 0, 0, 0]` from the
mode register, so all ten attempts mismatch. -/
def dFail : Dev := ⟨fun _ => some [0, 0, 0, 0], fun _ => 1, fun _ => 1⟩

theorem dfu_failure_nonfatal_witness :
    sessionRun dFail [] [] = some (.failedDFU [0, 0, 0, 0], runSession [] []) ∧
    sessionRun dFail (none :: []) [] = some (.failedDFU [0, 0, 0, 0], some ⟨0⟩) := by
  have h := dfu_failure_nonfatal dFail [0, 0, 0, 0] _ rfl
  exact ⟨h.1 [] [], h.2 none [] [] rfl⟩

end AutoDFU
